import Mathlib

/-!
Shallow embedding of `src/vite-fix-naiveui-icon.ts` (a Vite plugin that
patches naive-ui sources to avoid an icon memory leak).

Text is modelled as `List Char`.  The two regular expressions used by the
plugin (`/function replaceable\s*\(([^,]+),\s*icon\)\s*\x7b/` and
`/setup\s*\(\)\s*\x7b/`) are deterministic at every start position (each
quantified sub-pattern is a maximal run followed by a literal that the run
cannot absorb), so `exec` is embedded as a leftmost scan with a
deterministic matcher per position.  MagicString edits are embedded as
non-overlapping splices over original-text coordinates.  Filesystem and
module-resolution effects (`readFileSync`, `createRequire`) are passed in
as explicit parameters.
-/

namespace ViteFixNaiveuiIcon

/-- ECMAScript whitespace class `\s`. -/
def isJsSpace (c : Char) : Bool :=
  c = ' ' || c = '\t' || c = '\n' || c = '\r' || c = '\x0b' || c = '\x0c' ||
  c.toNat = 0xa0 || c.toNat = 0x1680 ||
  (0x2000 ≤ c.toNat && c.toNat ≤ 0x200a) ||
  c.toNat = 0x2028 || c.toNat = 0x2029 || c.toNat = 0x202f ||
  c.toNat = 0x205f || c.toNat = 0x3000 || c.toNat = 0xfeff

/-- Length of the maximal run of characters satisfying `p` at the front. -/
def runLen (p : Char → Bool) (cs : List Char) : Nat :=
  (cs.takeWhile p).length

/-- Leftmost-match scan: try the deterministic matcher at every position
(`b` is the absolute index of the head of `cs`); on success return the
match's absolute index and its length.  This is JS `RegExp.exec` for the
deterministic patterns embedded below. -/
def execAux (tryAt : List Char → Option Nat) : List Char → Nat → Option (Nat × Nat)
  | [], b =>
    match tryAt [] with
    | some l => some (b, l)
    | none => none
  | c :: rest, b =>
    match tryAt (c :: rest) with
    | some l => some (b, l)
    | none => execAux tryAt rest (b + 1)

def execLeftmost (tryAt : List Char → Option Nat) (cs : List Char) : Option (Nat × Nat) :=
  execAux tryAt cs 0

/-- Index of the first occurrence of `pat` in `cs` (JS `String.indexOf`,
which is what a first-occurrence `replace` uses). -/
def firstOccur (cs pat : List Char) : Option Nat :=
  (execLeftmost (fun s => if pat.isPrefixOf s then some pat.length else none) cs).map Prod.fst

/-- One step of the brace counter of the replaceable transform:
`if (char === priv) braceCount++; if (char === close) braceCount--`. -/
def braceStep (d : Nat) (c : Char) : Nat :=
  let d1 := if c = '\x7b' then d + 1 else d
  if c = '\x7d' then d1 - 1 else d1

/-- The `while (braceCount > 0 && funcEndIdx < code.length)` loop:
`cs` is the text from index `idx` on; returns the final
`(funcEndIdx, braceCount)`. -/
def braceScanAux : List Char → Nat → Nat → Nat × Nat
  | [], idx, depth => (idx, depth)
  | c :: rest, idx, depth =>
    if depth = 0 then (idx, depth)
    else braceScanAux rest (idx + 1) (braceStep depth c)

/-- The brace scan as a function of the whole text: start just after an
already-counted opening brace at depth 1; the second component is `0`
exactly when a matching close was found, and nonzero (input exhausted)
is the not-found signal. -/
def findMatchingClose (text : List Char) (startIndex : Nat) : Nat × Nat :=
  braceScanAux (text.drop startIndex) startIndex 1

/-- `version.split(".")` over character lists (keeps empty components,
`"" → [""]`, like the JS split). -/
def splitDots : List Char → List (List Char)
  | [] => [[]]
  | c :: rest =>
    match splitDots rest with
    | [] => [[]]
    | h :: t => if c = '.' then [] :: h :: t else (c :: h) :: t

/-- Decimal value of a nonempty all-digit component, else `none`. -/
def chListToNat? (cs : List Char) : Option Nat :=
  if !cs.isEmpty && cs.all (fun c => c.isDigit) then
    some (cs.foldl (fun n c => n * 10 + (c.toNat - 48)) 0)
  else none

/-- A dotted-version component as JS `Number(c) || 0` evaluates it for the
numeric components version strings are made of (a non-numeric or empty
component collapses to 0, as NaN and the empty string are falsy/zero). -/
def jsNumComponent (cs : List Char) : Nat :=
  (chListToNat? cs).getD 0

def parseVersion (s : String) : List Nat :=
  (splitDots s.toList).map jsNumComponent

/-- The `for` loop of `compareVersion`: at position `i` compare
`v1[i] || 0` with `v2[i] || 0`; greater wins, smaller loses, equal moves
on; `fuel` is the number of remaining iterations (`max length - i`), and
exhausting all positions yields `true`. -/
def cmpFrom (v1 v2 : List Nat) : Nat → Nat → Bool
  | 0, _ => true
  | fuel + 1, i =>
    let n1 := v1.getD i 0
    let n2 := v2.getD i 0
    if n1 > n2 then true
    else if n1 < n2 then false
    else cmpFrom v1 v2 fuel (i + 1)

def cmpComponents (v1 v2 : List Nat) : Bool :=
  cmpFrom v1 v2 (max v1.length v2.length) 0

/-- `compareVersion(version, target)`: true iff `version >= target`. -/
def compareVersion (version target : String) : Bool :=
  cmpComponents (parseVersion version) (parseVersion target)

def FIXED_VERSION : String := "2.40.4"

/-- `getNaiveUIVersion`: the `require.resolve` + `readFileSync` + JSON
parse attempt is passed in as its outcome; the `catch` swallows any
failure into `null`. -/
def getNaiveUIVersion (resolveAttempt : Except Unit String) : Option String :=
  match resolveAttempt with
  | Except.ok v => some v
  | Except.error _ => none

/-- `configResolved`: `skipFix` starts false and becomes true exactly when
`version && compareVersion(version, FIXED_VERSION)` (a `null` or empty
version string is falsy in JS). -/
def computeSkipFix (version : Option String) : Bool :=
  match version with
  | none => false
  | some v => !(v = "") && compareVersion v FIXED_VERSION

/-! ### The replaceable-stage transform -/

/-- The literal pattern of the `magicString.replace` call. -/
def litSig : List Char := ("function replaceable(name, icon)").toList

/-- Its replacement. -/
def newSig : List Char := ("function replaceable(name, _icon_)").toList

/-- The exact one-space signature form `function replaceable(name, icon) \x7b`. -/
def sigFull : List Char := ("function replaceable(name, icon) \x7b").toList

/-- The text inserted after `setup() \x7b`. -/
def insText : List Char := ("\n  const icon = fixNaiveuiIconCloneVnode(_icon_);").toList

def litFn : List Char := ("function replaceable").toList

/-- Deterministic matcher at one position for
`function replaceable\s*\(([^,]+),\s*icon\)\s*\x7b`: each `\s*` (and the
`[^,]+`) is a maximal run followed by a literal the run cannot absorb, so
no backtracking is possible and the match length is unique. -/
def tryMatchSig (cs : List Char) : Option Nat :=
  if litFn.isPrefixOf cs then
    let cs1 := cs.drop litFn.length
    let w1 := runLen isJsSpace cs1
    match cs1.drop w1 with
    | '(' :: cs3 =>
      let g := runLen (fun c => !(c = ',')) cs3
      if g = 0 then none
      else
        match cs3.drop g with
        | ',' :: cs4 =>
          let w2 := runLen isJsSpace cs4
          let cs5 := cs4.drop w2
          if ("icon)").toList.isPrefixOf cs5 then
            let cs6 := cs5.drop 5
            let w3 := runLen isJsSpace cs6
            match cs6.drop w3 with
            | '\x7b' :: _ => some (litFn.length + w1 + 1 + g + 1 + w2 + 5 + w3 + 1)
            | _ => none
          else none
        | _ => none
    | _ => none
  else none

/-- Deterministic matcher at one position for `setup\s*\(\)\s*\x7b`. -/
def tryMatchSetup (cs : List Char) : Option Nat :=
  if ("setup").toList.isPrefixOf cs then
    let cs1 := cs.drop 5
    let w1 := runLen isJsSpace cs1
    match cs1.drop w1 with
    | '(' :: ')' :: cs3 =>
      let w2 := runLen isJsSpace cs3
      match cs3.drop w2 with
      | '\x7b' :: _ => some (5 + w1 + 2 + w2 + 1)
      | _ => none
    | _ => none
  else none

def sigExec (code : List Char) : Option (Nat × Nat) :=
  execLeftmost tryMatchSig code

def setupExec (cs : List Char) : Option (Nat × Nat) :=
  execLeftmost tryMatchSetup cs

/-- `code.slice(endIdx, funcEndIdx)` where `funcEndIdx` comes from the
brace scan started right after the matched signature. -/
def sigBody (code : List Char) (endIdx : Nat) : List Char :=
  (code.take (findMatchingClose code endIdx).1).drop endIdx

/-- The absolute offset of the `appendLeft` edit
(`endIdx + setupMatch.index + setupMatch[0].length`), when both anchors
are found. -/
def replIns (code : List Char) : Option Nat :=
  match sigExec code with
  | none => none
  | some (i, l) =>
    match setupExec (sigBody code (i + l)) with
    | none => none
    | some (si, sl) => some (i + l + si + sl)

/-- The MagicString of the replaceable stage rendered to text: an optional
first-occurrence overwrite of `litSig` by `newSig` at original offset `p`
and an optional `appendLeft` of `insText` at original offset `ins`.  In
the transform the insertion point sits immediately after a brace and
`litSig` contains no brace, so the insertion point never falls strictly
inside the overwritten span; both orders of the two disjoint edits are
rendered. -/
def msApply (code : List Char) (rep : Option Nat) (ins : Option Nat) : List Char :=
  match rep, ins with
  | none, none => code
  | some p, none => code.take p ++ newSig ++ code.drop (p + litSig.length)
  | none, some j => code.take j ++ insText ++ code.drop j
  | some p, some j =>
    if j ≤ p then
      code.take j ++ insText ++ ((code.drop j).take (p - j)) ++ newSig ++
        code.drop (p + litSig.length)
    else
      code.take p ++ newSig ++
        ((code.drop (p + litSig.length)).take (j - (p + litSig.length))) ++
        insText ++ code.drop j

/-- The result of the literal replacement step alone. -/
def replaceOnly (code : List Char) : List Char :=
  msApply code (firstOccur code litSig) none

/-- The whole replaceable-stage rewrite of one file's text. -/
def transformReplaceable (code : List Char) : List Char :=
  msApply code (firstOccur code litSig) (replIns code)

/-! ### Filters, stages, export-default dispatch -/

/-- `containsSub id pat`: the regex made of the escaped literal `pat`
tests true on `id` (what `createFilter` does with these patterns). -/
def containsSub (id pat : List Char) : Bool :=
  (firstOccur id pat).isSome

def devFilterPat : List Char := ("/.vite/deps/naive-ui.js").toList

def fixReplaceableFilterDev (id : List Char) : Bool :=
  containsSub id devFilterPat

def fixExportDefaultFilterDev (id : List Char) : Bool :=
  containsSub id devFilterPat

def fixReplaceableFilterBuild (id : List Char) : Bool :=
  containsSub id ("/naive-ui/es/_internal/icons/replaceable").toList

def fixExportDefaultFilterBuild (id : List Char) : Bool :=
  containsSub id ("/naive-ui/es/checkbox/src/Checkbox.mjs").toList ||
  containsSub id ("/naive-ui/es/back-top/src/BackTop.mjs").toList ||
  containsSub id ("/naive-ui/es/rate/src/Rate.mjs").toList ||
  containsSub id ("/naive-ui/es/result/src/Result.mjs").toList

/-- The import line prepended by the pre stage. -/
def importLine : List Char :=
  ("import fixNaiveuiIconCloneVnode from \x27virtual:fixNaiveuiIcon-path:deepCloneVnode.js\x27;\n").toList

/-- `vite-fix-naiveui-icon:pre` transform: `none` is a decline (the host
keeps the input text). -/
def transformPreStage (skipFix : Bool) (replFilter expFilter : List Char → Bool)
    (id code : List Char) : Option (List Char) :=
  if skipFix then none
  else if !replFilter id && !expFilter id then none
  else some (importLine ++ code)

/-- `vite-fix-naiveui-icon-replaceable` transform. -/
def transformReplaceableStage (skipFix : Bool) (replFilter : List Char → Bool)
    (id code : List Char) : Option (List Char) :=
  if skipFix then none
  else if !replFilter id then none
  else some (transformReplaceable code)

/-- The per-component patch recipes of `./transformMap` are external
collaborators of the patch engine; the build-mode `switch (true)` selects
which one runs. -/
inductive ExportDescriptor
  | checkbox
  | backTop
  | rate
  | resultC
deriving DecidableEq

def checkboxPat : List Char := ("checkbox").toList

def backTopPat : List Char := ("back-top").toList

def ratePat : List Char := ("rate").toList

def resultPat : List Char := ("result").toList

/-- The `switch (true)` chain: first matching `id.includes` case wins. -/
def selectDescriptor (id : List Char) : Option ExportDescriptor :=
  if containsSub id checkboxPat then some ExportDescriptor.checkbox
  else if containsSub id backTopPat then some ExportDescriptor.backTop
  else if containsSub id ratePat then some ExportDescriptor.rate
  else if containsSub id resultPat then some ExportDescriptor.resultC
  else none

/-- Build-mode body of the export-default transform: when no case matches,
the MagicString is left untouched and renders back to the input. -/
def dispatchBuild (applyDesc : ExportDescriptor → List Char → List Char)
    (id code : List Char) : List Char :=
  match selectDescriptor id with
  | some d => applyDesc d code
  | none => code

/-- `vite-fix-naiveui-icon-export-default` transform; `applyDev` embeds
the external `transformDev` and `applyDesc` the external `transformMap`
recipes. -/
def transformExportDefaultStage (skipFix : Bool) (expFilter : List Char → Bool)
    (isBuild : Bool) (applyDev : List Char → List Char)
    (applyDesc : ExportDescriptor → List Char → List Char)
    (id code : List Char) : Option (List Char) :=
  if skipFix then none
  else if !expFilter id then none
  else if !isBuild then some (applyDev code)
  else some (dispatchBuild applyDesc id code)

/-- The host keeps the input text when a transform declines. -/
def transformOutput (r : Option (List Char)) (code : List Char) : List Char :=
  r.getD code

/-! ### Virtual overlay resolver -/

def virtualMarker : List Char := ("virtual:fixNaiveuiIcon-path:").toList

/-- `resolveId`: `id.replace(marker, VirtualPath + sep)` under the
`startsWith` guard replaces the marker at position 0. -/
def resolveId (virtualPath id : List Char) : Option (List Char) :=
  if virtualMarker.isPrefixOf id then
    some (virtualPath ++ '/' :: id.drop virtualMarker.length)
  else none

/-- `load`: `fs` is the filesystem (path to contents of existing files);
`existsSync` + `readFileSync` read through it. -/
def loadVirtual (virtualPath : List Char) (fs : List Char → Option (List Char))
    (id : List Char) : Option (List Char) :=
  if virtualPath.isPrefixOf id then fs id else none

/-! ### Specification-side predicate and concrete fixtures -/

/-- The claimed reading of the version comparison: `version ≥ target`
holds exactly when, wherever all more-significant components agree
(absent trailing components counting as zero), the component of the
version is not below the component of the target. -/
def atLeastSpec (l1 l2 : List Nat) : Prop :=
  ∀ i, i ≤ max l1.length l2.length →
    (∀ j, j < i → l1.getD j 0 = l2.getD j 0) → l2.getD i 0 ≤ l1.getD i 0

/-- Canonical replaceable source: exact signature plus nested `setup() \x7b`. -/
def exReplaceable : List Char :=
  ("function replaceable(name, icon) \x7b\n  setup() \x7b\n  \x7d\n\x7d").toList

/-- The brace-scan example block. -/
def exBrace : List Char := ("\x7b a(); \x7b b(); \x7d c(); \x7d").toList

/-- Variant with a space before the parameter list: the insertion regex
matches it but the literal replacement pattern does not occur. -/
def exIndep : List Char :=
  ("function replaceable (name, icon) \x7b\n  setup() \x7b\n  \x7d\n\x7d").toList

/-- Text with neither anchor nor the literal pattern. -/
def exPlain : List Char := ("hello").toList

/-- A dev-server identity equal to the aggregate pre-bundle cache path. -/
def exAggId : List Char := ("/root/node_modules/.vite/deps/naive-ui.js").toList

/-- A build identity of an unenumerated component. -/
def exUnknownId : List Char := ("/naive-ui/es/unknown-component/src/U.mjs").toList

/-- The build identity of the checkbox component source. -/
def exCheckboxId : List Char := ("/naive-ui/es/checkbox/src/Checkbox.mjs").toList

/-- A concrete virtual-module id and overlay root for the resolver. -/
def exVirtualId : List Char :=
  ("virtual:fixNaiveuiIcon-path:deepCloneVnode.js").toList

def exVirtualRoot : List Char := ("/plugin/src/virtual").toList

/-! ### Theorems -/

/-- C7: in development mode both the replaceable filter and the
export-default filter match an identity equal to the aggregate cache path
(matching the `/\.vite/deps/naive-ui.js` pattern), and in build mode the
same identity matches neither filter. -/
theorem filters_mode_dispatch :
    fixReplaceableFilterDev exAggId = true ∧
    fixExportDefaultFilterDev exAggId = true ∧
    fixReplaceableFilterBuild exAggId = false ∧
    fixExportDefaultFilterBuild exAggId = false := by
  decide

/-- C10: the parameter rename (exact literal) and the body insertion
(whitespace-tolerant regex) are decided independently: on a source with a
space before the parameter list plus a nested `setup() \x7b`, the
transform inserts the `_icon_`-referencing binding while the rename is
not performed (the literal pattern does not occur and the output still
lacks the renamed parameter list). -/
theorem rename_insert_independent :
    firstOccur exIndep litSig = none ∧
    replIns exIndep = some 47 ∧
    transformReplaceable exIndep = exIndep.take 47 ++ insText ++ exIndep.drop 47 ∧
    containsSub (transformReplaceable exIndep) (("_icon_").toList) = true ∧
    containsSub (transformReplaceable exIndep) (("(name, _icon_)").toList) = false := by
  decide

/-- C6: when the session skip flag is true (as it is for version
`2.41.0` against the `2.40.4` threshold), every transform stage of every
plugin declines, so the host keeps the input text for every candidate
file and id. -/
theorem skip_true_all_stages_decline (v : Option String)
    (hv : computeSkipFix v = true)
    (rf ef : List Char → Bool) (isBuild : Bool)
    (applyDev : List Char → List Char)
    (applyDesc : ExportDescriptor → List Char → List Char)
    (id code : List Char) :
    transformPreStage (computeSkipFix v) rf ef id code = none ∧
    transformReplaceableStage (computeSkipFix v) rf id code = none ∧
    transformExportDefaultStage (computeSkipFix v) ef isBuild applyDev applyDesc id code = none ∧
    transformOutput (transformPreStage (computeSkipFix v) rf ef id code) code = code ∧
    transformOutput (transformReplaceableStage (computeSkipFix v) rf id code) code = code ∧
    transformOutput
      (transformExportDefaultStage (computeSkipFix v) ef isBuild applyDev applyDesc id code)
      code = code := by
  rw [hv]
  exact ⟨rfl, rfl, rfl, rfl, rfl, rfl⟩

theorem skip_true_all_stages_decline_witness :
    transformPreStage (computeSkipFix (some ("2.41.0"))) (fun _ => true) (fun _ => true)
      exAggId exPlain = none ∧
    transformOutput
      (transformReplaceableStage (computeSkipFix (some ("2.41.0"))) (fun _ => true)
        exAggId exPlain) exPlain = exPlain := by
  have h := skip_true_all_stages_decline (some ("2.41.0")) (by decide)
    (fun _ => true) (fun _ => true) true (fun c => c) (fun _ c => c) exAggId exPlain
  exact ⟨h.1, h.2.2.2.2.1⟩

/-- C4: the session skip flag is true iff version resolution succeeds
with a truthy (non-null, nonempty) version string that compares at least
the fixed threshold; a failed resolution is swallowed into `null`
(`none`), and then the flag stays false, so patching proceeds. -/
theorem skipFix_iff_version_atLeast (v : Option String) (u : Unit) :
    (computeSkipFix v = true ↔
      ∃ s, v = some s ∧ ¬ s = "" ∧ compareVersion s FIXED_VERSION = true) ∧
    getNaiveUIVersion (Except.error u) = none ∧
    computeSkipFix (getNaiveUIVersion (Except.error u)) = false ∧
    (∀ s, getNaiveUIVersion (Except.ok s) = some s) := by
  refine ⟨?_, rfl, rfl, fun s => rfl⟩
  cases v with
  | none => simp [computeSkipFix]
  | some s =>
    simp only [computeSkipFix, Bool.and_eq_true, Bool.not_eq_true', decide_eq_false_iff_not,
      Option.some.injEq]
    constructor
    · rintro ⟨hne, hcmp⟩
      exact ⟨s, rfl, hne, hcmp⟩
    · rintro ⟨s2, rfl, hne, hcmp⟩
      exact ⟨hne, hcmp⟩

theorem skipFix_iff_version_atLeast_witness :
    computeSkipFix (some ("2.41.0")) = true ∧
    computeSkipFix (getNaiveUIVersion (Except.error ())) = false := by
  refine ⟨?_, (skipFix_iff_version_atLeast none ()).2.2.1⟩
  exact (skipFix_iff_version_atLeast (some ("2.41.0")) ()).1.mpr
    ⟨"2.41.0", rfl, by decide, by decide⟩

/-- C9: `resolveId` maps exactly the identities beginning with the fixed
virtual marker to the virtual root joined with the remaining name and
declines all others; `load` serves the filesystem contents of resolved
identities under the virtual root and declines otherwise, never
fabricating content. -/
theorem resolveId_load_spec (vp : List Char) (fs : List Char → Option (List Char))
    (id : List Char) :
    (virtualMarker.isPrefixOf id = true →
      resolveId vp id = some (vp ++ '/' :: id.drop virtualMarker.length)) ∧
    (virtualMarker.isPrefixOf id = false → resolveId vp id = none) ∧
    (vp.isPrefixOf id = true → loadVirtual vp fs id = fs id) ∧
    (vp.isPrefixOf id = false → loadVirtual vp fs id = none) ∧
    (∀ t, loadVirtual vp fs id = some t → fs id = some t) := by
  refine ⟨fun h => by simp [resolveId, h], fun h => by simp [resolveId, h],
    fun h => by simp [loadVirtual, h], fun h => by simp [loadVirtual, h],
    fun t ht => ?_⟩
  by_cases h : vp.isPrefixOf id
  · simpa [loadVirtual, h] using ht
  · simp [loadVirtual, h] at ht

theorem resolveId_load_spec_witness :
    resolveId exVirtualRoot exVirtualId =
      some (exVirtualRoot ++ '/' :: exVirtualId.drop virtualMarker.length) ∧
    resolveId exVirtualRoot exPlain = none ∧
    loadVirtual exVirtualRoot (fun _ => none) exPlain = none :=
  ⟨(resolveId_load_spec exVirtualRoot (fun _ => none) exVirtualId).1 (by decide),
   (resolveId_load_spec exVirtualRoot (fun _ => none) exPlain).2.1 (by decide),
   (resolveId_load_spec exVirtualRoot (fun _ => none) exPlain).2.2.2.1 (by decide)⟩

/-- C8: in build mode the export-default stage selects the checkbox
descriptor exactly when the identity contains the substring `checkbox`
(the first case of the dispatch chain); an identity matching no
enumerated case receives no insertion and the text passes through
unchanged. -/
theorem exportDefault_dispatch_checkbox
    (applyDesc : ExportDescriptor → List Char → List Char) (id code : List Char) :
    (selectDescriptor id = some ExportDescriptor.checkbox ↔
      containsSub id checkboxPat = true) ∧
    (selectDescriptor id = some ExportDescriptor.backTop ↔
      (containsSub id checkboxPat = false ∧ containsSub id backTopPat = true)) ∧
    (selectDescriptor id = some ExportDescriptor.rate ↔
      (containsSub id checkboxPat = false ∧ containsSub id backTopPat = false ∧
        containsSub id ratePat = true)) ∧
    (selectDescriptor id = some ExportDescriptor.resultC ↔
      (containsSub id checkboxPat = false ∧ containsSub id backTopPat = false ∧
        containsSub id ratePat = false ∧ containsSub id resultPat = true)) ∧
    (selectDescriptor id = none → dispatchBuild applyDesc id code = code) ∧
    selectDescriptor exUnknownId = none ∧
    dispatchBuild applyDesc exUnknownId code = code := by
  have hunk : selectDescriptor exUnknownId = none := by decide
  refine ⟨?_, ?_, ?_, ?_, fun h => by simp [dispatchBuild, h], hunk,
    by simp [dispatchBuild, hunk]⟩ <;>
    · unfold selectDescriptor
      split_ifs <;> simp_all

theorem exportDefault_dispatch_checkbox_witness :
    selectDescriptor exCheckboxId = some ExportDescriptor.checkbox ∧
    dispatchBuild (fun _ c => c) exUnknownId exPlain = exPlain :=
  ⟨((exportDefault_dispatch_checkbox (fun _ c => c) exCheckboxId exPlain).1).mpr (by decide),
   (exportDefault_dispatch_checkbox (fun _ c => c) exUnknownId exPlain).2.2.2.2.1 (by decide)⟩

/-- If the deterministic matcher succeeds somewhere (say at offset `k`),
the leftmost scan succeeds at some offset `j ≤ k` where the matcher
succeeds with the reported length. -/
theorem execAux_found (tryAt : List Char → Option Nat) :
    ∀ (cs : List Char) (b k l : Nat), tryAt (cs.drop k) = some l →
    ∃ j l2, j ≤ k ∧ execAux tryAt cs b = some (b + j, l2) ∧
      tryAt (cs.drop j) = some l2 := by
  intro cs
  induction cs with
  | nil =>
    intro b k l h
    rw [List.drop_nil] at h
    exact ⟨0, l, Nat.zero_le k, by simp [execAux, h], by simpa using h⟩
  | cons c rest ih =>
    intro b k l h
    cases hty : tryAt (c :: rest) with
    | some l0 =>
      exact ⟨0, l0, Nat.zero_le k, by simp [execAux, hty], by simpa using hty⟩
    | none =>
      cases k with
      | zero =>
        rw [List.drop_zero] at h
        rw [h] at hty
        cases hty
      | succ k2 =>
        have h2 : tryAt (rest.drop k2) = some l := by
          simpa using h
        obtain ⟨j, l2, hj, hex, hts⟩ := ih (b + 1) k2 l h2
        refine ⟨j + 1, l2, by omega, ?_, by simpa using hts⟩
        have harith : b + (j + 1) = (b + 1) + j := by omega
        rw [harith]
        simpa [execAux, hty] using hex

/-- C1: on a file whose text the signature regex matches at `i` as the
exact literal signature `function replaceable(name, icon) \x7b`, and
whose brace-delimited body slice contains the `setup() \x7b` anchor at
index `si` with match length `sl`, the replaceable stage (skip false,
filter matching the id) renames the parameter (the first literal
occurrence, at some `p ≤ i`) and inserts the clone binding at the
absolute offset `i + |signature| + si + sl` — body slice start plus
setup match index plus setup match length, i.e. immediately after
`setup() \x7b` — while removing no original text. -/
theorem transformReplaceable_inserts_after_setup
    (filt : List Char → Bool) (id code : List Char) (i si sl : Nat)
    (hfilt : filt id = true)
    (h1 : sigExec code = some (i, sigFull.length))
    (h2 : sigFull.isPrefixOf (code.drop i) = true)
    (h3 : setupExec (sigBody code (i + sigFull.length)) = some (si, sl)) :
    ∃ p, p ≤ i ∧ firstOccur code litSig = some p ∧
      transformReplaceableStage false filt id code =
        some (code.take p ++ newSig ++
          ((code.drop (p + litSig.length)).take
            ((i + sigFull.length + si + sl) - (p + litSig.length))) ++
          insText ++ code.drop (i + sigFull.length + si + sl)) := by
  have hpre1 : litSig <+: sigFull := List.isPrefixOf_iff_prefix.mp (by decide)
  have hpre2 : sigFull <+: code.drop i := List.isPrefixOf_iff_prefix.mp h2
  have hlit : litSig.isPrefixOf (code.drop i) = true :=
    List.isPrefixOf_iff_prefix.mpr (hpre1.trans hpre2)
  have hT : (fun s => if litSig.isPrefixOf s then some litSig.length else none)
      (code.drop i) = some litSig.length := by
    simp only [hlit, if_true]
  obtain ⟨j, l2, hj, hex, hTs⟩ :=
    execAux_found (fun s => if litSig.isPrefixOf s then some litSig.length else none)
      code 0 i litSig.length hT
  have hfo : firstOccur code litSig = some j := by
    unfold firstOccur execLeftmost
    rw [hex]
    simp
  have hins : replIns code = some (i + sigFull.length + si + sl) := by
    simp only [replIns, h1, h3]
  have hord : ¬ (i + sigFull.length + si + sl ≤ j) := by
    have hsl : sigFull.length = 34 := by decide
    omega
  refine ⟨j, hj, hfo, ?_⟩
  have hstage : transformReplaceableStage false filt id code =
      some (transformReplaceable code) := by
    unfold transformReplaceableStage
    rw [hfilt]
    rfl
  rw [hstage]
  unfold transformReplaceable
  rw [hfo, hins]
  simp only [msApply]
  rw [if_neg hord]

theorem transformReplaceable_inserts_after_setup_witness :
    ∃ p, p ≤ 0 ∧ firstOccur exReplaceable litSig = some p ∧
      transformReplaceableStage false (fun _ => true) exPlain exReplaceable =
        some (exReplaceable.take p ++ newSig ++
          ((exReplaceable.drop (p + litSig.length)).take
            ((0 + sigFull.length + 3 + 9) - (p + litSig.length))) ++
          insText ++ exReplaceable.drop (0 + sigFull.length + 3 + 9)) :=
  transformReplaceable_inserts_after_setup (fun _ => true) exPlain exReplaceable 0 3 9
    rfl (by decide) (by decide) (by decide)

/-- Loop invariant of `compareVersion`: with `fuel` iterations left from
position `i`, the loop answers true exactly when at every position `k`
that all positions from `i` up to it agree on, the first list's
component is at least the second's. -/
theorem cmpFrom_iff (v1 v2 : List Nat) :
    ∀ (fuel i : Nat), i + fuel = max v1.length v2.length →
    (cmpFrom v1 v2 fuel i = true ↔
      ∀ k, i ≤ k → k ≤ max v1.length v2.length →
        (∀ j, i ≤ j → j < k → v1.getD j 0 = v2.getD j 0) →
        v2.getD k 0 ≤ v1.getD k 0) := by
  intro fuel
  induction fuel with
  | zero =>
    intro i hN
    simp only [cmpFrom]
    constructor
    · intro _ k hik hkN hagree
      have h1 : v1.getD k 0 = 0 := List.getD_eq_default _ _ (by omega)
      have h2 : v2.getD k 0 = 0 := List.getD_eq_default _ _ (by omega)
      omega
    · intro _
      trivial
  | succ fuel ih =>
    intro i hN
    have hstep : cmpFrom v1 v2 (fuel + 1) i =
        (if v1.getD i 0 > v2.getD i 0 then true
         else if v1.getD i 0 < v2.getD i 0 then false
         else cmpFrom v1 v2 fuel (i + 1)) := rfl
    rw [hstep]
    rcases Nat.lt_trichotomy (v1.getD i 0) (v2.getD i 0) with hlt | heq | hgt
    · rw [if_neg (by omega), if_pos hlt]
      constructor
      · intro h
        exact absurd h (by simp)
      · intro H
        exfalso
        have := H i (le_refl i) (by omega) (fun j hj1 hj2 => by omega)
        omega
    · rw [if_neg (by omega), if_neg (by omega)]
      rw [ih (i + 1) (by omega)]
      constructor
      · intro H k hik hkN hagree
        rcases Nat.eq_or_lt_of_le hik with rfl | hlt2
        · omega
        · exact H k (by omega) hkN (fun j hj1 hj2 => hagree j (by omega) hj2)
      · intro H k hik hkN hagree
        refine H k (by omega) hkN (fun j hj1 hj2 => ?_)
        rcases Nat.eq_or_lt_of_le hj1 with rfl | hj
        · exact heq
        · exact hagree j (by omega) hj2
    · rw [if_pos hgt]
      constructor
      · intro _ k hik hkN hagree
        rcases Nat.eq_or_lt_of_le hik with rfl | hlt2
        · omega
        · exfalso
          have := hagree i (le_refl i) hlt2
          omega
      · intro _
        rfl

/-- The comparison over whole component lists is the claimed
first-point-of-difference reading. -/
theorem cmp_iff_atLeastSpec (l1 l2 : List Nat) :
    cmpComponents l1 l2 = true ↔ atLeastSpec l1 l2 := by
  unfold cmpComponents
  rw [cmpFrom_iff l1 l2 (max l1.length l2.length) 0 (by omega)]
  unfold atLeastSpec
  constructor
  · intro H i hiN hagree
    exact H i (Nat.zero_le i) hiN (fun j _ hj => hagree j hj)
  · intro H k _ hkN hagree
    exact H k hkN (fun j hj => hagree j (Nat.zero_le j) hj)

/-- C3: `compareVersion` compares numeric components from the most
significant, treats absent trailing components as zero, and answers true
exactly when at the first point of difference the version's component is
not below the target's (and when all components agree); with the four
quoted evaluations. -/
theorem compareVersion_componentwise :
    (∀ l1 l2 : List Nat, cmpComponents l1 l2 = true ↔ atLeastSpec l1 l2) ∧
    compareVersion "2.40.4" "2.40.4" = true ∧
    compareVersion "2.41.0" "2.40.4" = true ∧
    compareVersion "2.40.3" "2.40.4" = false ∧
    compareVersion "2.40" "2.40.0" = true :=
  ⟨cmp_iff_atLeastSpec, by decide, by decide, by decide, by decide⟩

theorem compareVersion_componentwise_witness :
    cmpComponents [2, 41] [2, 40, 4] = true :=
  (compareVersion_componentwise.1 [2, 41] [2, 40, 4]).mpr (by
    unfold atLeastSpec
    decide)

/-- Once the count reaches zero the loop exits immediately. -/
theorem braceScanAux_zero (cs : List Char) (idx : Nat) :
    braceScanAux cs idx 0 = (idx, 0) := by
  cases cs with
  | nil => rfl
  | cons c rest => simp [braceScanAux]

/-- Full characterisation of the brace-count loop: with positive starting
depth, a final count of zero means the loop stopped just past the first
position where the running depth (folded by `braceStep`) hits zero, and
that position holds a closing brace; a nonzero final count means the
input was exhausted with the index at the end of the text. -/
theorem braceScanAux_spec (cs : List Char) : ∀ (s d : Nat), 0 < d →
    ((braceScanAux cs s d).2 = 0 →
      ∃ k, 0 < k ∧ k ≤ cs.length ∧ (braceScanAux cs s d).1 = s + k ∧
        cs.getD (k - 1) ' ' = '\x7d' ∧
        (cs.take k).foldl braceStep d = 0 ∧
        (∀ m, m < k → ¬ (cs.take m).foldl braceStep d = 0)) ∧
    ((braceScanAux cs s d).2 ≠ 0 →
      (braceScanAux cs s d).1 = s + cs.length ∧
      (braceScanAux cs s d).2 = cs.foldl braceStep d) := by
  induction cs with
  | nil =>
    intro s d hd
    constructor
    · intro h
      simp [braceScanAux] at h
      omega
    · intro _
      simp [braceScanAux]
  | cons c rest ih =>
    intro s d hd
    have hne : ¬ d = 0 := by omega
    have hunf : braceScanAux (c :: rest) s d = braceScanAux rest (s + 1) (braceStep d c) := by
      simp [braceScanAux, hne]
    by_cases hz : braceStep d c = 0
    · have hc : c = '\x7d' := by
        by_contra hcn
        unfold braceStep at hz
        simp only [hcn, if_false] at hz
        split at hz <;> omega
      rw [hunf, hz, braceScanAux_zero]
      constructor
      · intro _
        refine ⟨1, Nat.one_pos, ?_, rfl, ?_, ?_, ?_⟩
        · simp only [List.length_cons]
          omega
        · simp [hc]
        · rw [show (c :: rest).take 1 = [c] from rfl]
          exact hz
        · intro m hm
          have hm0 : m = 0 := by omega
          subst hm0
          exact hne
      · intro h
        simp at h
    · have hpos : 0 < braceStep d c := Nat.pos_of_ne_zero hz
      have IH := ih (s + 1) (braceStep d c) hpos
      rw [hunf]
      constructor
      · intro h2
        obtain ⟨k, hk0, hkle, hidx, hch, hfold, hmin⟩ := IH.1 h2
        obtain ⟨k2, rfl⟩ : ∃ k2, k = k2 + 1 := ⟨k - 1, by omega⟩
        refine ⟨k2 + 2, by omega, ?_, by omega, ?_, ?_, ?_⟩
        · simp only [List.length_cons]
          omega
        · exact hch
        · exact hfold
        · intro m hm
          cases m with
          | zero => exact hne
          | succ m2 => exact hmin m2 (by omega)
      · intro h2
        obtain ⟨hidx, hfold⟩ := IH.2 h2
        constructor
        · simp only [List.length_cons]
          omega
        · exact hfold

/-- C2: the brace scan, entered immediately after one already-counted
opening brace (depth 1, and in general any positive depth), increments
the depth on each opening brace and decrements it on each closing brace;
a zero final count means it returns the index immediately after the
brace bringing the depth to zero, and exhaustion with a nonzero count
(the not-found signal) returns the end-of-input index.  On the example
block it skips the nested pair and stops just past the final closing
brace. -/
theorem findMatchingClose_spec (cs : List Char) (s d : Nat) (hd : 0 < d) :
    (braceStep d '\x7b' = d + 1 ∧ braceStep d '\x7d' = d - 1 ∧
      (∀ c, ¬ c = '\x7b' → ¬ c = '\x7d' → braceStep d c = d)) ∧
    ((braceScanAux cs s d).2 = 0 →
      ∃ k, 0 < k ∧ k ≤ cs.length ∧ (braceScanAux cs s d).1 = s + k ∧
        cs.getD (k - 1) ' ' = '\x7d' ∧
        (cs.take k).foldl braceStep d = 0 ∧
        (∀ m, m < k → ¬ (cs.take m).foldl braceStep d = 0)) ∧
    ((braceScanAux cs s d).2 ≠ 0 →
      (braceScanAux cs s d).1 = s + cs.length ∧
      (braceScanAux cs s d).2 = cs.foldl braceStep d) ∧
    findMatchingClose exBrace 1 = (22, 0) ∧
    exBrace.getD 21 ' ' = '\x7d' ∧ exBrace.length = 22 := by
  refine ⟨⟨?_, ?_, fun c h1 h2 => ?_⟩, (braceScanAux_spec cs s d hd).1,
    (braceScanAux_spec cs s d hd).2, by decide, by decide, by decide⟩
  · simp [braceStep]
  · simp [braceStep]
  · simp [braceStep, h1, h2]

theorem findMatchingClose_spec_witness :
    findMatchingClose exBrace 1 = (22, 0) :=
  (findMatchingClose_spec [] 0 1 (by decide)).2.2.2.1

/-- C5: when the signature regex or the nested `setup() \x7b` anchor is
missing, the insertion edit alone is dropped and the stage returns only
the literal-replacement result; when the literal pattern is also absent
the text comes back unchanged. -/
theorem transformReplaceable_missing_anchor (code : List Char) :
    (replIns code = none ↔
      sigExec code = none ∨
        ∃ i l, sigExec code = some (i, l) ∧
          setupExec (sigBody code (i + l)) = none) ∧
    (replIns code = none → transformReplaceable code = replaceOnly code) ∧
    (replIns code = none → firstOccur code litSig = none →
      transformReplaceable code = code) := by
  refine ⟨?_, fun h => ?_, fun h hf => ?_⟩
  · cases hs : sigExec code with
    | none => simp [replIns, hs]
    | some il =>
      obtain ⟨i, l⟩ := il
      cases hst : setupExec (sigBody code (i + l)) with
      | none =>
        simp [replIns, hs, hst]
        exact ⟨i, l, ⟨rfl, rfl⟩, hst⟩
      | some p => simp [replIns, hs, hst]
  · unfold transformReplaceable replaceOnly
    rw [h]
  · unfold transformReplaceable
    rw [h, hf]
    rfl

theorem transformReplaceable_missing_anchor_witness :
    transformReplaceable exPlain = exPlain :=
  (transformReplaceable_missing_anchor exPlain).2.2 (by decide) (by decide)

end ViteFixNaiveuiIcon
